import Mathlib

/-!
Verification development for `nullfs.py` (nullfs_pyfuse3): a write-discarding,
in-memory filesystem implemented as a pyfuse3 request handler.

The `NullFS` Python class is embedded shallowly:

* The inode dictionary `self._inode_data : dict[InodeT, InodeData]` becomes an
  association list `List (Nat × InodeData)` with the dictionary operations
  `dictGet`, `dictSet`, `dictDel`.
* Python `InodeData` objects hold direct references to their parent and
  children; the dictionary keys every node by its `attr.st_ino`.  The
  embedding stores inode numbers in place of object references (the
  representation the repository's spec itself recommends); mutating an object
  through a reference becomes updating the table at that inode number.
* `FUSEError(errno)` and the Python runtime exceptions that can escape a
  handler (`KeyError` from raw dictionary indexing, `ValueError` from
  `list.remove`, `AttributeError` from a `None` parent) are the constructors
  of `Err`; only the `FUSEError` ones are typed protocol errors.
* `itertools.count` counters become explicit `Nat` fields.
* `time_ns()` is an external input and is passed as an argument.
* Mutating handler methods become functions `NullFS → ... → Except Err α × NullFS`
  returning the result (or error) together with the state after the call.
* `pyfuse3.readdir_reply` is an external collaborator: it is modelled as an
  oracle `token : Nat → Bool` telling whether the k-th entry offered in this
  call still fits; the delivered entries are the observable output.
-/

/-- Dictionary read `d.get(k)`: the binding of `k`, if any. -/
def dictGet {α : Type} (k : Nat) : List (Nat × α) → Option α
  | [] => none
  | p :: rest => if p.1 = k then some p.2 else dictGet k rest

/-- Dictionary write `d[k] = v`: replaces the binding of `k`, else appends it. -/
def dictSet {α : Type} (k : Nat) (v : α) : List (Nat × α) → List (Nat × α)
  | [] => [(k, v)]
  | p :: rest => if p.1 = k then (k, v) :: rest else p :: dictSet k v rest

/-- Dictionary deletion `del d[k]`: drops the binding of `k`. -/
def dictDel {α : Type} (k : Nat) : List (Nat × α) → List (Nat × α)
  | [] => []
  | p :: rest => if p.1 = k then rest else p :: dictDel k rest

/-- Bitwise AND on naturals (Python `m & u`), by structural recursion on a
fuel that bounds the bit length (`m` itself is enough) so concrete instances
reduce inside the kernel. -/
def bitAndAux (fuel : Nat) (m u : Nat) : Nat :=
  match fuel with
  | 0 => 0
  | fuel + 1 => if m = 0 then 0 else m % 2 * (u % 2) + 2 * bitAndAux fuel (m / 2) (u / 2)

/-- Python `m & u` for naturals. -/
def bitAnd (m u : Nat) : Nat := bitAndAux m m u

/-- Bitwise AND-NOT on naturals (Python `m & ~u`, the umask-clearing
operation), by the same fuel recursion. -/
def bitAndNotAux (fuel : Nat) (m u : Nat) : Nat :=
  match fuel with
  | 0 => 0
  | fuel + 1 => if m = 0 then 0 else m % 2 * (1 - u % 2) + 2 * bitAndNotAux fuel (m / 2) (u / 2)

/-- Python `m & ~u` for naturals: the bits of `m` with the bits of `u`
cleared. -/
def bitAndNot (m u : Nat) : Nat := bitAndNotAux m m u

/-- pyfuse3's root inode number. -/
def ROOT_INODE : Nat := 1

/-- os.O_WRONLY on Linux. -/
def O_WRONLY : Nat := 1

/-- Errors a handler can finish with: `FUSEError` errno values (the typed
protocol errors) and the Python runtime exceptions reachable in `nullfs.py`. -/
inductive Err where
  | ENOENT
  | ENOTEMPTY
  | EINVAL
  | EACCES
  | ENOATTR
  | keyError
  | valueError
  | attributeError
deriving DecidableEq

/-- Whether an error is a typed protocol error (a `FUSEError`) as opposed to an
escaping Python runtime exception. -/
def Err.isTyped : Err → Bool
  | .ENOENT | .ENOTEMPTY | .EINVAL | .EACCES | .ENOATTR => true
  | .keyError | .valueError | .attributeError => false

/-- The pyfuse3 `EntryAttributes` fields `nullfs.py` uses (timestamps in ns). -/
structure EntryAttributes where
  st_ino : Nat
  st_mode : Nat
  st_nlink : Nat
  st_uid : Nat
  st_gid : Nat
  st_rdev : Nat
  st_size : Nat
  st_blksize : Nat
  st_blocks : Nat
  st_atime_ns : Nat
  st_ctime_ns : Nat
  st_mtime_ns : Nat
  st_birthtime_ns : Nat
deriving DecidableEq

/-- The pyfuse3 `SetattrFields` presence mask used by `NullFS.setattr`. -/
structure SetattrFields where
  update_atime : Bool
  update_mtime : Bool
  update_ctime : Bool
  update_mode : Bool
  update_uid : Bool
  update_gid : Bool
  update_size : Bool
deriving DecidableEq

/-- `NullFS.InodeData`: one filesystem node.  `parent_inode` and
`child_inodes` hold inode numbers in place of the Python object references;
`child_inodes` is in insertion (creation) order. -/
structure NullFS.InodeData where
  name : String
  attr : EntryAttributes
  parent_inode : Option Nat
  child_inodes : List Nat
deriving DecidableEq

/-- The relevant fields of `os.stat` of the mount directory, used to build the
root inode's attributes. -/
structure Stat where
  st_mode : Nat
  st_nlink : Nat
  st_uid : Nat
  st_gid : Nat
  st_rdev : Nat
  st_size : Nat
  st_blksize : Nat
  st_blocks : Nat
  st_atime_ns : Nat
  st_ctime_ns : Nat
  st_mtime_ns : Nat
deriving DecidableEq

/-- The state of a `NullFS` instance: the two `itertools.count` counters, the
inode table and the open-file-handle table. -/
structure NullFS where
  free_inode : Nat
  inode_data : List (Nat × NullFS.InodeData)
  free_file_handle : Nat
  file_handle_inode : List (Nat × Nat)
deriving DecidableEq

namespace NullFS

/-- `NullFS.__init__` together with `_set_root_inode`: the fresh instance with
the single root node mirroring the mount directory's stat. -/
def init (root_name : String) (st : Stat) : NullFS :=
  { free_inode := ROOT_INODE + 1
    inode_data := [(ROOT_INODE,
      { name := root_name
        attr :=
          { st_ino := ROOT_INODE
            st_mode := st.st_mode
            st_nlink := st.st_nlink
            st_uid := st.st_uid
            st_gid := st.st_gid
            st_rdev := st.st_rdev
            st_size := st.st_size
            st_blksize := st.st_blksize
            st_blocks := st.st_blocks
            st_atime_ns := st.st_atime_ns
            st_ctime_ns := st.st_ctime_ns
            st_mtime_ns := st.st_mtime_ns
            st_birthtime_ns := 0 }
        parent_inode := none
        child_inodes := [] })]
    free_file_handle := 0
    file_handle_inode := [] }

/-- Dereference an inode number: the node the table stores under it. -/
def nodeAt (s : NullFS) (inode : Nat) : Option InodeData :=
  dictGet inode s.inode_data

/-- `NullFS.InodeData.get_child` on a list of child inode numbers: the first
child (in insertion order) whose name matches. -/
def childNamed (s : NullFS) (name : String) : List Nat → Option InodeData
  | [] => none
  | i :: rest =>
    match s.nodeAt i with
    | none => childNamed s name rest
    | some c => if c.name = name then some c else childNamed s name rest

/-- `NullFS.InodeData.get_child` for the children of a given node. -/
def get_child (s : NullFS) (d : InodeData) (name : String) : Option InodeData :=
  childNamed s name d.child_inodes

/-- `NullFS._get_inode`. -/
def _get_inode (s : NullFS) (inode : Nat) : Except Err InodeData :=
  match dictGet inode s.inode_data with
  | none => .error .ENOENT
  | some d => .ok d

/-- `NullFS._get_inode_by_name`. -/
def _get_inode_by_name (s : NullFS) (parent_inode : Nat) (name : String) :
    Except Err InodeData :=
  match dictGet parent_inode s.inode_data with
  | none => .error .ENOENT
  | some p =>
    match s.get_child p name with
    | none => .error .ENOENT
    | some c => .ok c

/-- `NullFS._get_inode_by_fh`. -/
def _get_inode_by_fh (s : NullFS) (fh : Nat) : Except Err Nat :=
  match dictGet fh s.file_handle_inode with
  | none => .error .ENOENT
  | some i => .ok i

/-- `NullFS._add_inode`.  `time_stamp_ns` is the value `time_ns()` returned. -/
def _add_inode (s : NullFS) (parent_inode : Nat) (name : String)
    (mode uid gid umask time_stamp_ns : Nat) : Except Err InodeData × NullFS :=
  match s._get_inode parent_inode with
  | .error e => (.error e, s)
  | .ok parent_data =>
    let attr : EntryAttributes :=
      { st_ino := s.free_inode
        st_mode := bitAndNot mode umask
        st_nlink := 0
        st_uid := uid
        st_gid := gid
        st_rdev := 0
        st_size := 0
        st_blksize := 4096
        st_blocks := 0
        st_atime_ns := time_stamp_ns
        st_ctime_ns := time_stamp_ns
        st_mtime_ns := time_stamp_ns
        st_birthtime_ns := 0 }
    let inode_data : InodeData :=
      { name := name
        attr := attr
        parent_inode := some parent_inode
        child_inodes := [] }
    let table1 := dictSet attr.st_ino inode_data s.inode_data
    let table2 := dictSet parent_inode
      { parent_data with child_inodes := parent_data.child_inodes ++ [attr.st_ino] } table1
    (.ok inode_data, { s with free_inode := s.free_inode + 1, inode_data := table2 })

/-- `NullFS._remove_inode`.  `child_inode_data.parent_inode.remove_child(...)`
removes the child from its parent's list (`list.remove`, a `ValueError` when
absent); `del self._inode_data[...]` is a `KeyError` when the key is absent. -/
def _remove_inode (s : NullFS) (parent_inode : Nat) (name : String) :
    Except Err Unit × NullFS :=
  match s._get_inode_by_name parent_inode name with
  | .error e => (.error e, s)
  | .ok child_data =>
    if 0 < child_data.child_inodes.length then
      (.error .ENOTEMPTY, s)
    else
      match child_data.parent_inode with
      | none => (.error .attributeError, s)
      | some pid =>
        match dictGet pid s.inode_data with
        | none => (.error .valueError, s)
        | some pdata =>
          if child_data.attr.st_ino ∈ pdata.child_inodes then
            let pdata2 : InodeData :=
              { pdata with child_inodes := pdata.child_inodes.erase child_data.attr.st_ino }
            let s1 := { s with inode_data := dictSet pid pdata2 s.inode_data }
            match dictGet child_data.attr.st_ino s1.inode_data with
            | none => (.error .keyError, s1)
            | some _ =>
              (.ok (), { s1 with inode_data := dictDel child_data.attr.st_ino s1.inode_data })
          else (.error .valueError, s)

/-- `NullFS._open`. -/
def _open (s : NullFS) (inode : Nat) : Except Err Nat × NullFS :=
  match dictGet inode s.inode_data with
  | none => (.error .ENOENT, s)
  | some _ =>
    let fh := s.free_file_handle
    (.ok fh, { s with free_file_handle := s.free_file_handle + 1,
                      file_handle_inode := dictSet fh inode s.file_handle_inode })

/-- `NullFS._close`. -/
def _close (s : NullFS) (fh : Nat) : Except Err Unit × NullFS :=
  match dictGet fh s.file_handle_inode with
  | none => (.error .ENOENT, s)
  | some _ => (.ok (), { s with file_handle_inode := dictDel fh s.file_handle_inode })

/-- `NullFS.create`: `_add_inode` followed by `_open` on the new inode. -/
def create (s : NullFS) (parent_inode : Nat) (name : String)
    (mode uid gid umask time_stamp_ns : Nat) :
    Except Err (Nat × EntryAttributes) × NullFS :=
  match s._add_inode parent_inode name mode uid gid umask time_stamp_ns with
  | (.error e, s1) => (.error e, s1)
  | (.ok inode_data, s1) =>
    match s1._open inode_data.attr.st_ino with
    | (.error e, s2) => (.error e, s2)
    | (.ok fh, s2) => (.ok (fh, inode_data.attr), s2)

/-- `NullFS.getattr`. -/
def getattr (s : NullFS) (inode : Nat) : Except Err EntryAttributes × NullFS :=
  match s._get_inode inode with
  | .error e => (.error e, s)
  | .ok d => (.ok d.attr, s)

/-- `NullFS.lookup`. -/
def lookup (s : NullFS) (parent_inode : Nat) (name : String) :
    Except Err EntryAttributes × NullFS :=
  match s._get_inode_by_name parent_inode name with
  | .error e => (.error e, s)
  | .ok d => (.ok d.attr, s)

/-- `NullFS.mkdir`. -/
def mkdir (s : NullFS) (parent_inode : Nat) (name : String)
    (mode uid gid umask time_stamp_ns : Nat) : Except Err EntryAttributes × NullFS :=
  match s._add_inode parent_inode name mode uid gid umask time_stamp_ns with
  | (.error e, s1) => (.error e, s1)
  | (.ok d, s1) => (.ok d.attr, s1)

/-- `NullFS.open` (named `openFile` here because `open` is a Lean keyword):
write-only intent is required, checked before anything else. -/
def openFile (s : NullFS) (inode flags : Nat) : Except Err Nat × NullFS :=
  if bitAnd flags O_WRONLY ≠ 0 then s._open inode
  else (.error .EACCES, s)

/-- `NullFS.opendir`. -/
def opendir (s : NullFS) (inode : Nat) : Except Err Nat × NullFS :=
  s._open inode

/-- The `readdir` loop over `child_inodes[start_id:]`: the k-th
`readdir_reply` call returns `token k`; the loop stops at the first refusal.
The result is the list of delivered `(name, attr, next_id)` entries. -/
def readdirLoop (token : Nat → Bool) (start_id : Nat) :
    List InodeData → Nat → List (String × EntryAttributes × Nat)
  | [], _ => []
  | d :: rest, index =>
    if token index then
      (d.name, d.attr, start_id + index + 1) :: readdirLoop token start_id rest (index + 1)
    else []

/-- `NullFS.readdir`.  Note the raw dictionary indexing
`self._inode_data[inode]` after the handle lookup: a missing inode is a
`KeyError`, not a `FUSEError`. -/
def readdir (s : NullFS) (fh start_id : Nat) (token : Nat → Bool) :
    Except Err (List (String × EntryAttributes × Nat)) × NullFS :=
  match s._get_inode_by_fh fh with
  | .error e => (.error e, s)
  | .ok inode =>
    match dictGet inode s.inode_data with
    | none => (.error .keyError, s)
    | some d =>
      if start_id < d.child_inodes.length then
        (.ok (readdirLoop token start_id
          ((d.child_inodes.drop start_id).filterMap s.nodeAt) 0), s)
      else (.ok [], s)

/-- `NullFS.release`. -/
def release (s : NullFS) (fh : Nat) : Except Err Unit × NullFS :=
  s._close fh

/-- `NullFS.releasedir`. -/
def releasedir (s : NullFS) (fh : Nat) : Except Err Unit × NullFS :=
  s._close fh

/-- `NullFS.rmdir`. -/
def rmdir (s : NullFS) (parent_inode : Nat) (name : String) : Except Err Unit × NullFS :=
  s._remove_inode parent_inode name

/-- `NullFS.unlink`. -/
def unlink (s : NullFS) (parent_inode : Nat) (name : String) : Except Err Unit × NullFS :=
  s._remove_inode parent_inode name

/-- The attribute value after `NullFS.setattr`'s sequence of guarded field
assignments. -/
def applySetattr (old new : EntryAttributes) (fields : SetattrFields) : EntryAttributes :=
  let a1 := if fields.update_atime then { old with st_atime_ns := new.st_atime_ns } else old
  let a2 := if fields.update_mtime then { a1 with st_mtime_ns := new.st_mtime_ns } else a1
  let a3 := if fields.update_ctime then { a2 with st_ctime_ns := new.st_ctime_ns } else a2
  let a4 := if fields.update_mode then { a3 with st_mode := new.st_mode } else a3
  let a5 := if fields.update_uid then { a4 with st_uid := new.st_uid } else a4
  let a6 := if fields.update_gid then { a5 with st_gid := new.st_gid } else a5
  if fields.update_size then { a6 with st_size := new.st_size } else a6

/-- `NullFS.setattr`: the in-place mutation of the found node's `attr` is the
table updated at that inode number. -/
def setattr (s : NullFS) (inode : Nat) (attr : EntryAttributes) (fields : SetattrFields) :
    Except Err EntryAttributes × NullFS :=
  match s._get_inode inode with
  | .error e => (.error e, s)
  | .ok d =>
    let a := applySetattr d.attr attr fields
    (.ok a, { s with inode_data := dictSet inode { d with attr := a } s.inode_data })

/-- `NullFS.write`: validates the handle, discards the payload, reports its
length. -/
def write (s : NullFS) (fh _off : Nat) (buf : List Nat) : Except Err Nat × NullFS :=
  match s._get_inode_by_fh fh with
  | .error e => (.error e, s)
  | .ok _ => (.ok buf.length, s)

/-- `NullFS.flush`: not implemented, always succeeds. -/
def flush (s : NullFS) (_fh : Nat) : Except Err Unit × NullFS :=
  (.ok (), s)

/-- `NullFS.getxattr`: extended attributes are unsupported. -/
def getxattr (s : NullFS) (_inode : Nat) (_name : String) : Except Err Unit × NullFS :=
  (.error .ENOATTR, s)

/-- The operations of the operation handler, with their request arguments. -/
inductive Op where
  | create (parent_inode : Nat) (name : String) (mode uid gid umask time_stamp_ns : Nat)
  | openFile (inode flags : Nat)
  | write (fh off : Nat) (buf : List Nat)
  | lookup (parent_inode : Nat) (name : String)
  | getattr (inode : Nat)
  | mkdir (parent_inode : Nat) (name : String) (mode uid gid umask time_stamp_ns : Nat)
  | setattr (inode : Nat) (attr : EntryAttributes) (fields : SetattrFields)
  | readdir (fh start_id : Nat) (token : Nat → Bool)
  | unlink (parent_inode : Nat) (name : String)
  | rmdir (parent_inode : Nat) (name : String)
  | release (fh : Nat)

/-- The possible success payloads of the operation handler. -/
inductive Output where
  | attr (a : EntryAttributes)
  | handle (fh : Nat)
  | created (fh : Nat) (a : EntryAttributes)
  | size (n : Nat)
  | entries (l : List (String × EntryAttributes × Nat))
  | done

/-- Wrap an operation's result into the common `Output` type. -/
def mapOut {α : Type} (f : α → Output) :
    Except Err α × NullFS → Except Err Output × NullFS
  | (.error e, s) => (.error e, s)
  | (.ok a, s) => (.ok (f a), s)

/-- Dispatch one request to its handler. -/
def step (s : NullFS) : Op → Except Err Output × NullFS
  | .create p n m u g um ts => mapOut (fun r => .created r.1 r.2) (s.create p n m u g um ts)
  | .openFile i fl => mapOut .handle (s.openFile i fl)
  | .write fh off buf => mapOut .size (s.write fh off buf)
  | .lookup p n => mapOut .attr (s.lookup p n)
  | .getattr i => mapOut .attr (s.getattr i)
  | .mkdir p n m u g um ts => mapOut .attr (s.mkdir p n m u g um ts)
  | .setattr i a f => mapOut .attr (s.setattr i a f)
  | .readdir fh st tok => mapOut .entries (s.readdir fh st tok)
  | .unlink p n => mapOut (fun _ => .done) (s.unlink p n)
  | .rmdir p n => mapOut (fun _ => .done) (s.rmdir p n)
  | .release fh => mapOut (fun _ => .done) (s.release fh)

/-- Every inode number the table mentions (keys and child references) is below
the allocation counter: the invariant behind identifier freshness. -/
def IdsBelow (s : NullFS) : Prop :=
  ∀ p ∈ s.inode_data, p.1 < s.free_inode ∧ ∀ c ∈ p.2.child_inodes, c < s.free_inode

instance (s : NullFS) : Decidable s.IdsBelow :=
  inferInstanceAs (Decidable (∀ p ∈ s.inode_data, p.1 < s.free_inode ∧
    ∀ c ∈ p.2.child_inodes, c < s.free_inode))

/-- Representation well-formedness of the table: keys are unique, every node
is keyed by its own `st_ino`, and every child reference resolves to a distinct
node whose parent reference points back. -/
def Wf (s : NullFS) : Prop :=
  (s.inode_data.map Prod.fst).Nodup ∧
  (∀ p ∈ s.inode_data, p.2.attr.st_ino = p.1) ∧
  (∀ p ∈ s.inode_data, ∀ c ∈ p.2.child_inodes, c ≠ p.1 ∧
    ∃ q ∈ s.inode_data, q.1 = c ∧ q.2.parent_inode = some p.1)

instance (s : NullFS) : Decidable s.Wf :=
  inferInstanceAs (Decidable (_ ∧ _ ∧
    ∀ p ∈ s.inode_data, ∀ c ∈ p.2.child_inodes, c ≠ p.1 ∧
      ∃ q ∈ s.inode_data, q.1 = c ∧ q.2.parent_inode = some p.1))

/-- The fresh attribute record `_add_inode` builds (lemma-support shorthand). -/
def freshAttr (s : NullFS) (mode uid gid umask ts : Nat) : EntryAttributes :=
  { st_ino := s.free_inode
    st_mode := bitAndNot mode umask
    st_nlink := 0
    st_uid := uid
    st_gid := gid
    st_rdev := 0
    st_size := 0
    st_blksize := 4096
    st_blocks := 0
    st_atime_ns := ts
    st_ctime_ns := ts
    st_mtime_ns := ts
    st_birthtime_ns := 0 }

/-- The fresh node `_add_inode` builds (lemma-support shorthand). -/
def freshNode (s : NullFS) (p : Nat) (n : String) (mode uid gid umask ts : Nat) : InodeData :=
  { name := n
    attr := s.freshAttr mode uid gid umask ts
    parent_inode := some p
    child_inodes := [] }

end NullFS

instance {ε α : Type} [DecidableEq ε] [DecidableEq α] : DecidableEq (Except ε α) :=
  fun a b =>
    match a, b with
    | .ok x, .ok y => if h : x = y then .isTrue (by rw [h]) else .isFalse (by simp [h])
    | .error x, .error y => if h : x = y then .isTrue (by rw [h]) else .isFalse (by simp [h])
    | .ok _, .error _ => .isFalse (by simp)
    | .error _, .ok _ => .isFalse (by simp)

/-! Concrete states for witnesses: a mount directory stat, the fresh
filesystem, and a few short operation traces. -/

/-- String constants used by concrete traces. -/
def nameMnt : String := ("mnt")

def nameA : String := ("a")

def nameB : String := ("b")

def nameD : String := ("d")

/-- A sample mount-directory stat (mode 0o40755, 2 links, uid/gid 1000). -/
def stat0 : Stat := ⟨16877, 2, 1000, 1000, 0, 4096, 4096, 8, 11, 12, 13⟩

/-- The freshly constructed filesystem. -/
def fs0 : NullFS := NullFS.init nameMnt stat0

/-- The root node of `fs0`. -/
def rootNode0 : NullFS.InodeData :=
  ⟨nameMnt, ⟨1, 16877, 2, 1000, 1000, 0, 4096, 4096, 8, 11, 12, 13, 0⟩, none, []⟩

/-- A readdir_reply oracle that always has room. -/
def acceptAll : Nat → Bool := fun _ => true

/-- A readdir_reply oracle with room for exactly one entry. -/
def acceptOne : Nat → Bool := fun k => decide (k < 1)

/-- Trace for the stale-directory-handle scenario: make directory `d`
(inode 2), open a directory handle on it (handle 0), then remove `d`. -/
def c1s : NullFS :=
  (((fs0.mkdir 1 nameD 16877 1000 1000 18 7).2.opendir 2).2.rmdir 1 nameD).2

/-- Third child name for the pagination trace. -/
def nameC : String := ("c")

/-- Pagination trace: three files a, b, c under the root (inodes 2, 3, 4),
then a directory handle (handle 0) opened on the root. -/
def c3s : NullFS :=
  ((((fs0._add_inode 1 nameA 33188 0 0 0 1).2._add_inode 1 nameB 33188 0 0 0 2).2._add_inode
      1 nameC 33188 0 0 0 3).2.opendir 1).2

/-- The root of `c3s`, holding children [2, 3, 4] in creation order. -/
def c3root : NullFS.InodeData :=
  ⟨nameMnt, ⟨1, 16877, 2, 1000, 1000, 0, 4096, 4096, 8, 11, 12, 13, 0⟩, none, [2, 3, 4]⟩

/-- Child a of the pagination trace. -/
def c3dA : NullFS.InodeData :=
  ⟨nameA, ⟨2, 33188, 0, 0, 0, 0, 0, 4096, 0, 1, 1, 1, 0⟩, some 1, []⟩

/-- Child b of the pagination trace. -/
def c3dB : NullFS.InodeData :=
  ⟨nameB, ⟨3, 33188, 0, 0, 0, 0, 0, 4096, 0, 2, 2, 2, 0⟩, some 1, []⟩

/-- Child c of the pagination trace. -/
def c3dC : NullFS.InodeData :=
  ⟨nameC, ⟨4, 33188, 0, 0, 0, 0, 0, 4096, 0, 3, 3, 3, 0⟩, some 1, []⟩

/-- Name for the C5 witness child. -/
def nameW5 : String := ("w5")

/-- Duplicate-name trace: the file `a` created twice under the fresh root
(inodes 2 and 3, both named `a`, both with empty child collections). -/
def c4s : NullFS :=
  ((fs0._add_inode 1 nameA 493 0 0 0 1).2._add_inode 1 nameA 493 0 0 0 2).2

/-- The first of the two duplicates in `c4s`. -/
def c4child1 : NullFS.InodeData :=
  ⟨nameA, ⟨2, 493, 0, 0, 0, 0, 0, 4096, 0, 1, 1, 1, 0⟩, some 1, []⟩

/-- Single-child trace for the C4 witness: one file `b` under the fresh
root. -/
def c4w : NullFS := (fs0._add_inode 1 nameB 493 0 0 0 1).2

/-- The root of `c4w` (child collection [2]). -/
def c4wroot : NullFS.InodeData :=
  ⟨nameMnt, ⟨1, 16877, 2, 1000, 1000, 0, 4096, 4096, 8, 11, 12, 13, 0⟩, none, [2]⟩

/-- The single child of `c4w`. -/
def c4wchild : NullFS.InodeData :=
  ⟨nameB, ⟨2, 493, 0, 0, 0, 0, 0, 4096, 0, 1, 1, 1, 0⟩, some 1, []⟩

section DictLemmas

variable {α : Type}

theorem dictGet_dictSet_self (k : Nat) (v : α) (l : List (Nat × α)) :
    dictGet k (dictSet k v l) = some v := by
  induction l with
  | nil => simp [dictSet, dictGet]
  | cons p rest ih =>
    by_cases h : p.1 = k
    · simp [dictSet, dictGet, h]
    · simp [dictSet, dictGet, h, ih]

theorem dictGet_dictSet_ne {j k : Nat} (h : j ≠ k) (v : α) (l : List (Nat × α)) :
    dictGet j (dictSet k v l) = dictGet j l := by
  induction l with
  | nil => simp only [dictSet, dictGet]; rw [if_neg (by omega)]
  | cons p rest ih =>
    by_cases hk : p.1 = k
    · by_cases hj : p.1 = j
      · omega
      · simp only [dictSet, dictGet, if_pos hk]
        rw [if_neg (by omega), if_neg hj]
    · simp only [dictSet, dictGet, if_neg hk, ih]

theorem dictGet_dictDel_ne {j k : Nat} (h : j ≠ k) (l : List (Nat × α)) :
    dictGet j (dictDel k l) = dictGet j l := by
  induction l with
  | nil => simp [dictDel]
  | cons p rest ih =>
    by_cases hk : p.1 = k
    · by_cases hj : p.1 = j
      · omega
      · simp only [dictDel, dictGet, if_pos hk, if_neg hj]
    · simp only [dictDel, dictGet, if_neg hk, ih]

theorem dictGet_mem {k : Nat} {v : α} {l : List (Nat × α)} (h : dictGet k l = some v) :
    (k, v) ∈ l := by
  induction l with
  | nil => simp [dictGet] at h
  | cons p rest ih =>
    by_cases hk : p.1 = k
    · simp only [dictGet, if_pos hk] at h
      injection h with hv
      cases p
      simp_all
    · simp only [dictGet, if_neg hk] at h
      exact List.mem_cons_of_mem _ (ih h)

theorem mem_dictSet {p : Nat × α} {k : Nat} {v : α} {l : List (Nat × α)}
    (h : p ∈ dictSet k v l) : p = (k, v) ∨ p ∈ l := by
  induction l with
  | nil => simpa [dictSet] using h
  | cons q rest ih =>
    by_cases hk : q.1 = k
    · simp only [dictSet, if_pos hk, List.mem_cons] at h
      rcases h with h | h
      · exact Or.inl h
      · exact Or.inr (List.mem_cons_of_mem _ h)
    · simp only [dictSet, if_neg hk, List.mem_cons] at h
      rcases h with h | h
      · exact Or.inr (by simp [h])
      · rcases ih h with h2 | h2
        · exact Or.inl h2
        · exact Or.inr (List.mem_cons_of_mem _ h2)

theorem mem_dictDel {p : Nat × α} {k : Nat} {l : List (Nat × α)}
    (h : p ∈ dictDel k l) : p ∈ l := by
  induction l with
  | nil => exact absurd h (by simp [dictDel])
  | cons q rest ih =>
    by_cases hk : q.1 = k
    · simp only [dictDel, if_pos hk] at h
      exact List.mem_cons_of_mem _ h
    · simp only [dictDel, if_neg hk, List.mem_cons] at h
      rcases h with h | h
      · simp [h]
      · exact List.mem_cons_of_mem _ (ih h)

theorem dictGet_eq_none_of_not_mem_keys {k : Nat} {l : List (Nat × α)}
    (h : k ∉ l.map Prod.fst) : dictGet k l = none := by
  induction l with
  | nil => simp [dictGet]
  | cons p rest ih =>
    simp only [List.map_cons, List.mem_cons, not_or] at h
    simp only [dictGet]
    rw [if_neg (by omega)]
    exact ih h.2

theorem keys_dictSet (k : Nat) (v : α) (l : List (Nat × α)) :
    k ∈ l.map Prod.fst → (dictSet k v l).map Prod.fst = l.map Prod.fst := by
  induction l with
  | nil => simp
  | cons p rest ih =>
    intro hmem
    by_cases hk : p.1 = k
    · simp [dictSet, if_pos hk, hk]
    · simp only [List.map_cons, List.mem_cons] at hmem
      rcases hmem with hmem | hmem
      · omega
      · simp [dictSet, if_neg hk, ih hmem]

theorem dictGet_dictDel_self {k : Nat} {l : List (Nat × α)}
    (h : (l.map Prod.fst).Nodup) : dictGet k (dictDel k l) = none := by
  induction l with
  | nil => simp [dictDel, dictGet]
  | cons p rest ih =>
    simp only [List.map_cons, List.nodup_cons] at h
    by_cases hk : p.1 = k
    · simp only [dictDel, if_pos hk]
      exact dictGet_eq_none_of_not_mem_keys (hk ▸ h.1)
    · simp only [dictDel, if_neg hk, dictGet]
      exact ih h.2

end DictLemmas

namespace NullFS

theorem childNamed_eq_none {s : NullFS} {n : String} {l : List Nat}
    (h : ∀ j ∈ l, ∀ d, dictGet j s.inode_data = some d → d.name ≠ n) :
    s.childNamed n l = none := by
  induction l with
  | nil => rfl
  | cons i rest ih =>
    have hrest : ∀ j ∈ rest, ∀ d, dictGet j s.inode_data = some d → d.name ≠ n :=
      fun j hj => h j (List.mem_cons_of_mem _ hj)
    cases hn : s.nodeAt i with
    | none => simp [childNamed, hn, ih hrest]
    | some c =>
      have hc : c.name ≠ n := h i (List.mem_cons_self _ _) c hn
      simp [childNamed, hn, hc, ih hrest]

theorem childNamed_none_forall {s : NullFS} {n : String} {l : List Nat}
    (h : s.childNamed n l = none) :
    ∀ j ∈ l, ∀ d, dictGet j s.inode_data = some d → d.name ≠ n := by
  induction l with
  | nil => intro j hj; exact absurd hj (by simp)
  | cons i rest ih =>
    simp only [childNamed] at h
    intro j hj d hd hname
    cases hn : s.nodeAt i with
    | none =>
      simp only [hn] at h
      rcases List.mem_cons.mp hj with rfl | hj2
      · simp only [nodeAt] at hn
        rw [hd] at hn
        cases hn
      · exact ih h j hj2 d hd hname
    | some c =>
      simp only [hn] at h
      by_cases hc : c.name = n
      · rw [if_pos hc] at h; cases h
      · rw [if_neg hc] at h
        rcases List.mem_cons.mp hj with rfl | hj2
        · simp only [nodeAt] at hn
          rw [hd] at hn
          injection hn with hn2
          exact hc (by rw [← hn2]; exact hname)
        · exact ih h j hj2 d hd hname

theorem childNamed_append_none {s : NullFS} {n : String} {l1 l2 : List Nat}
    (h : s.childNamed n l1 = none) :
    s.childNamed n (l1 ++ l2) = s.childNamed n l2 := by
  induction l1 with
  | nil => rfl
  | cons i rest ih =>
    simp only [List.cons_append, childNamed] at h ⊢
    cases hn : s.nodeAt i with
    | none =>
      simp only [hn] at h ⊢
      exact ih h
    | some c =>
      simp only [hn] at h ⊢
      by_cases hc : c.name = n
      · rw [if_pos hc] at h; cases h
      · rw [if_neg hc] at h ⊢
        exact ih h

theorem childNamed_some {s : NullFS} {n : String} {l : List Nat} {d : InodeData}
    (h : s.childNamed n l = some d) :
    d.name = n ∧ ∃ j ∈ l, dictGet j s.inode_data = some d := by
  induction l with
  | nil => cases h
  | cons i rest ih =>
    simp only [childNamed] at h
    cases hn : s.nodeAt i with
    | none =>
      simp only [hn] at h
      obtain ⟨h1, j, hj, h2⟩ := ih h
      exact ⟨h1, j, List.mem_cons_of_mem _ hj, h2⟩
    | some c =>
      simp only [hn] at h
      by_cases hc : c.name = n
      · rw [if_pos hc] at h
        injection h with h
        subst h
        exact ⟨hc, i, List.mem_cons_self _ _, hn⟩
      · rw [if_neg hc] at h
        obtain ⟨h1, j, hj, h2⟩ := ih h
        exact ⟨h1, j, List.mem_cons_of_mem _ hj, h2⟩

theorem _get_inode_ok {s : NullFS} {i : Nat} {d : InodeData} :
    s._get_inode i = .ok d ↔ dictGet i s.inode_data = some d := by
  unfold _get_inode
  cases hg : dictGet i s.inode_data <;> simp

theorem _get_inode_error {s : NullFS} {i : Nat} {e : Err} :
    s._get_inode i = .error e ↔ (dictGet i s.inode_data = none ∧ e = .ENOENT) := by
  unfold _get_inode
  cases hg : dictGet i s.inode_data <;> simp [eq_comm]

end NullFS

namespace NullFS

theorem _add_inode_spec {s : NullFS} {p : Nat} {pd : InodeData} (n : String)
    (m u g um ts : Nat) (hp : dictGet p s.inode_data = some pd) :
    s._add_inode p n m u g um ts =
      (.ok (s.freshNode p n m u g um ts),
       { s with free_inode := s.free_inode + 1,
                inode_data := dictSet p
                  { pd with child_inodes := pd.child_inodes ++ [s.free_inode] }
                  (dictSet s.free_inode (s.freshNode p n m u g um ts) s.inode_data) }) := by
  unfold _add_inode
  have hok : s._get_inode p = .ok pd := _get_inode_ok.mpr hp
  simp only [hok]
  rfl

theorem _add_inode_enoent {s : NullFS} {p : Nat} (n : String) (m u g um ts : Nat)
    (hp : dictGet p s.inode_data = none) :
    s._add_inode p n m u g um ts = (.error .ENOENT, s) := by
  unfold _add_inode
  have herr : s._get_inode p = .error .ENOENT := by unfold _get_inode; rw [hp]
  simp only [herr]

theorem _open_spec {s : NullFS} {i : Nat} {d : InodeData}
    (h : dictGet i s.inode_data = some d) :
    s._open i = (.ok s.free_file_handle,
      { s with free_file_handle := s.free_file_handle + 1,
               file_handle_inode := dictSet s.free_file_handle i s.file_handle_inode }) := by
  unfold _open
  simp only [h]

theorem _open_enoent {s : NullFS} {i : Nat} (h : dictGet i s.inode_data = none) :
    s._open i = (.error .ENOENT, s) := by
  unfold _open
  simp only [h]

theorem _close_spec {s : NullFS} {fh i : Nat} (h : dictGet fh s.file_handle_inode = some i) :
    s._close fh = (.ok (), { s with file_handle_inode := dictDel fh s.file_handle_inode }) := by
  unfold _close
  simp only [h]

theorem _close_enoent {s : NullFS} {fh : Nat} (h : dictGet fh s.file_handle_inode = none) :
    s._close fh = (.error .ENOENT, s) := by
  unfold _close
  simp only [h]

theorem _get_inode_by_fh_ok {s : NullFS} {fh i : Nat} :
    s._get_inode_by_fh fh = .ok i ↔ dictGet fh s.file_handle_inode = some i := by
  unfold _get_inode_by_fh
  cases hg : dictGet fh s.file_handle_inode <;> simp

theorem _get_inode_by_name_parent_none {s : NullFS} {p : Nat} (n : String)
    (hp : dictGet p s.inode_data = none) :
    s._get_inode_by_name p n = .error .ENOENT := by
  unfold _get_inode_by_name
  simp only [hp]

theorem _get_inode_by_name_child_none {s : NullFS} {p : Nat} {pd : InodeData} {n : String}
    (hp : dictGet p s.inode_data = some pd) (hc : s.get_child pd n = none) :
    s._get_inode_by_name p n = .error .ENOENT := by
  unfold _get_inode_by_name
  simp only [hp, hc]

theorem _get_inode_by_name_child_some {s : NullFS} {p : Nat} {pd child : InodeData}
    {n : String} (hp : dictGet p s.inode_data = some pd)
    (hc : s.get_child pd n = some child) :
    s._get_inode_by_name p n = .ok child := by
  unfold _get_inode_by_name
  simp only [hp, hc]

theorem mapOut_error {α : Type} {f : α → Output} {r : Except Err α × NullFS} {e : Err} :
    (mapOut f r).1 = .error e ↔ r.1 = .error e := by
  obtain ⟨x, s⟩ := r
  cases x <;> simp [mapOut]

theorem mapOut_snd {α : Type} (f : α → Output) (r : Except Err α × NullFS) :
    (mapOut f r).2 = r.2 := by
  obtain ⟨x, s⟩ := r
  cases x <;> rfl

theorem write_snd (s : NullFS) (fh off : Nat) (buf : List Nat) :
    (s.write fh off buf).2 = s := by
  unfold write
  cases hg : s._get_inode_by_fh fh <;> simp [hg]

theorem lookup_snd (s : NullFS) (p : Nat) (n : String) : (s.lookup p n).2 = s := by
  unfold lookup
  cases hg : s._get_inode_by_name p n <;> simp [hg]

theorem getattr_snd (s : NullFS) (i : Nat) : (s.getattr i).2 = s := by
  unfold getattr
  cases hg : s._get_inode i <;> simp [hg]

theorem readdir_snd (s : NullFS) (fh st : Nat) (tok : Nat → Bool) :
    (s.readdir fh st tok).2 = s := by
  unfold readdir
  cases hg : s._get_inode_by_fh fh with
  | error e => simp [hg]
  | ok i =>
    simp only [hg]
    cases hd : dictGet i s.inode_data with
    | none => simp
    | some d =>
      simp only
      by_cases hlen : st < d.child_inodes.length
      · simp [if_pos hlen]
      · simp [if_neg hlen]

end NullFS

namespace NullFS

theorem create_spec {s : NullFS} {p : Nat} {pd : InodeData} (n : String)
    (m u g um ts : Nat) (hp : dictGet p s.inode_data = some pd) :
    s.create p n m u g um ts =
      (.ok (s.free_file_handle, (s.freshNode p n m u g um ts).attr),
       { free_inode := s.free_inode + 1,
         inode_data := dictSet p
           { pd with child_inodes := pd.child_inodes ++ [s.free_inode] }
           (dictSet s.free_inode (s.freshNode p n m u g um ts) s.inode_data),
         free_file_handle := s.free_file_handle + 1,
         file_handle_inode := dictSet s.free_file_handle s.free_inode s.file_handle_inode }) := by
  unfold create
  simp only [_add_inode_spec n m u g um ts hp]
  unfold _open
  have hino : (s.freshNode p n m u g um ts).attr.st_ino = s.free_inode := rfl
  by_cases hpc : p = s.free_inode
  · have hx : dictGet (s.freshNode p n m u g um ts).attr.st_ino
        (dictSet p { pd with child_inodes := pd.child_inodes ++ [s.free_inode] }
          (dictSet s.free_inode (s.freshNode p n m u g um ts) s.inode_data)) =
        some { pd with child_inodes := pd.child_inodes ++ [s.free_inode] } := by
      rw [hino, ← hpc]
      exact dictGet_dictSet_self _ _ _
    simp only [hx]
    rw [hino]
  · have hne : (s.freshNode p n m u g um ts).attr.st_ino ≠ p := by
      rw [hino]
      exact fun h2 => hpc h2.symm
    have hx : dictGet (s.freshNode p n m u g um ts).attr.st_ino
        (dictSet p { pd with child_inodes := pd.child_inodes ++ [s.free_inode] }
          (dictSet s.free_inode (s.freshNode p n m u g um ts) s.inode_data)) =
        some (s.freshNode p n m u g um ts) := by
      rw [dictGet_dictSet_ne hne, hino]
      exact dictGet_dictSet_self _ _ _
    simp only [hx]
    rw [hino]

theorem create_enoent {s : NullFS} {p : Nat} (n : String) (m u g um ts : Nat)
    (hp : dictGet p s.inode_data = none) :
    s.create p n m u g um ts = (.error .ENOENT, s) := by
  unfold create
  simp only [_add_inode_enoent n m u g um ts hp]

theorem create_error_frame {s : NullFS} {p : Nat} {n : String} {m u g um ts : Nat} {e : Err}
    (herr : (s.create p n m u g um ts).1 = .error e) :
    (s.create p n m u g um ts).2 = s := by
  cases hg : dictGet p s.inode_data with
  | none => rw [create_enoent n m u g um ts hg]
  | some pd =>
    rw [create_spec n m u g um ts hg] at herr
    cases herr

theorem mkdir_error_frame {s : NullFS} {p : Nat} {n : String} {m u g um ts : Nat} {e : Err}
    (herr : (s.mkdir p n m u g um ts).1 = .error e) :
    (s.mkdir p n m u g um ts).2 = s := by
  cases hg : dictGet p s.inode_data with
  | none =>
    unfold mkdir
    rw [_add_inode_enoent n m u g um ts hg]
  | some pd =>
    unfold mkdir at herr
    rw [_add_inode_spec n m u g um ts hg] at herr
    cases herr

theorem openFile_error_frame {s : NullFS} {i fl : Nat} {e : Err}
    (herr : (s.openFile i fl).1 = .error e) :
    (s.openFile i fl).2 = s := by
  unfold openFile at herr ⊢
  by_cases hfl : bitAnd fl O_WRONLY ≠ 0
  · rw [if_pos hfl] at herr ⊢
    cases hg : dictGet i s.inode_data with
    | none => rw [_open_enoent hg]
    | some d =>
      rw [_open_spec hg] at herr
      cases herr
  · rw [if_neg hfl]

theorem setattr_error_frame {s : NullFS} {i : Nat} {a : EntryAttributes}
    {f : SetattrFields} {e : Err} (herr : (s.setattr i a f).1 = .error e) :
    (s.setattr i a f).2 = s := by
  unfold setattr at herr ⊢
  cases hg : dictGet i s.inode_data with
  | none =>
    have h2 : s._get_inode i = .error .ENOENT := by unfold _get_inode; rw [hg]
    simp only [h2]
  | some d =>
    have h2 : s._get_inode i = .ok d := _get_inode_ok.mpr hg
    simp only [h2] at herr
    cases herr

theorem _close_error_frame {s : NullFS} {fh : Nat} {e : Err}
    (herr : (s._close fh).1 = .error e) : (s._close fh).2 = s := by
  cases hg : dictGet fh s.file_handle_inode with
  | none => rw [_close_enoent hg]
  | some i =>
    rw [_close_spec hg] at herr
    cases herr

theorem _remove_inode_typed_error_frame {s : NullFS} {p : Nat} {n : String} {e : Err}
    (herr : (s._remove_inode p n).1 = .error e) (ht : e.isTyped = true) :
    (s._remove_inode p n).2 = s := by
  unfold _remove_inode at herr ⊢
  cases hg : s._get_inode_by_name p n with
  | error e2 => simp only [hg]
  | ok child =>
    simp only [hg] at herr ⊢
    by_cases hlen : 0 < child.child_inodes.length
    · simp only [if_pos hlen]
    · simp only [if_neg hlen] at herr ⊢
      cases hpar : child.parent_inode with
      | none => simp only
      | some pid =>
        simp only [hpar] at herr ⊢
        cases hpd : dictGet pid s.inode_data with
        | none => simp only
        | some pdata =>
          simp only [hpd] at herr ⊢
          by_cases hmem : child.attr.st_ino ∈ pdata.child_inodes
          · simp only [if_pos hmem] at herr ⊢
            cases hdel : dictGet child.attr.st_ino
                (dictSet pid
                  { pdata with child_inodes := pdata.child_inodes.erase child.attr.st_ino }
                  s.inode_data) with
            | none =>
              simp only [hdel] at herr
              injection herr with herr2
              rw [← herr2] at ht
              cases ht
            | some x =>
              simp only [hdel] at herr
              cases herr
          · simp only [if_neg hmem]

end NullFS

namespace NullFS

theorem mkdir_spec {s : NullFS} {p : Nat} {pd : InodeData} (n : String)
    (m u g um ts : Nat) (hp : dictGet p s.inode_data = some pd) :
    s.mkdir p n m u g um ts =
      (.ok (s.freshNode p n m u g um ts).attr,
       { s with free_inode := s.free_inode + 1,
                inode_data := dictSet p
                  { pd with child_inodes := pd.child_inodes ++ [s.free_inode] }
                  (dictSet s.free_inode (s.freshNode p n m u g um ts) s.inode_data) }) := by
  unfold mkdir
  simp only [_add_inode_spec n m u g um ts hp]

theorem mkdir_enoent {s : NullFS} {p : Nat} (n : String) (m u g um ts : Nat)
    (hp : dictGet p s.inode_data = none) :
    s.mkdir p n m u g um ts = (.error .ENOENT, s) := by
  unfold mkdir
  simp only [_add_inode_enoent n m u g um ts hp]

theorem setattr_spec {s : NullFS} {i : Nat} {d : InodeData} (a : EntryAttributes)
    (f : SetattrFields) (hd : dictGet i s.inode_data = some d) :
    s.setattr i a f =
      (.ok (applySetattr d.attr a f),
       { s with inode_data := dictSet i { d with attr := applySetattr d.attr a f }
                  s.inode_data }) := by
  unfold setattr
  simp only [_get_inode_ok.mpr hd]

theorem setattr_enoent {s : NullFS} {i : Nat} (a : EntryAttributes) (f : SetattrFields)
    (hd : dictGet i s.inode_data = none) :
    s.setattr i a f = (.error .ENOENT, s) := by
  unfold setattr
  have h2 : s._get_inode i = .error .ENOENT := by unfold _get_inode; rw [hd]
  simp only [h2]

/-- C8 claim theorem support: a failed operation's state, operation by
operation. -/
theorem step_typed_error_frame_aux (s : NullFS) (op : Op) (e : Err)
    (herr : (s.step op).1 = .error e) (ht : e.isTyped = true) :
    (s.step op).2 = s := by
  cases op with
  | create p n m u g um ts =>
    simp only [step] at herr ⊢
    rw [mapOut_snd]
    rw [mapOut_error] at herr
    exact create_error_frame herr
  | openFile i fl =>
    simp only [step] at herr ⊢
    rw [mapOut_snd]
    rw [mapOut_error] at herr
    exact openFile_error_frame herr
  | write fh off buf =>
    simp only [step]
    rw [mapOut_snd]
    exact write_snd s fh off buf
  | lookup p n =>
    simp only [step]
    rw [mapOut_snd]
    exact lookup_snd s p n
  | getattr i =>
    simp only [step]
    rw [mapOut_snd]
    exact getattr_snd s i
  | mkdir p n m u g um ts =>
    simp only [step] at herr ⊢
    rw [mapOut_snd]
    rw [mapOut_error] at herr
    exact mkdir_error_frame herr
  | setattr i a f =>
    simp only [step] at herr ⊢
    rw [mapOut_snd]
    rw [mapOut_error] at herr
    exact setattr_error_frame herr
  | readdir fh st tok =>
    simp only [step]
    rw [mapOut_snd]
    exact readdir_snd s fh st tok
  | unlink p n =>
    simp only [step] at herr ⊢
    rw [mapOut_snd]
    rw [mapOut_error] at herr
    exact _remove_inode_typed_error_frame herr ht
  | rmdir p n =>
    simp only [step] at herr ⊢
    rw [mapOut_snd]
    rw [mapOut_error] at herr
    exact _remove_inode_typed_error_frame herr ht
  | release fh =>
    simp only [step] at herr ⊢
    rw [mapOut_snd]
    rw [mapOut_error] at herr
    exact _close_error_frame herr

theorem _remove_inode_snd_free (s : NullFS) (p : Nat) (n : String) :
    (s._remove_inode p n).2.free_inode = s.free_inode ∧
    (s._remove_inode p n).2.free_file_handle = s.free_file_handle ∧
    (s._remove_inode p n).2.file_handle_inode = s.file_handle_inode := by
  unfold _remove_inode
  cases hg : s._get_inode_by_name p n with
  | error e2 => simp only [hg]; exact ⟨by trivial, by trivial, by trivial⟩
  | ok child =>
    simp only [hg]
    by_cases hlen : 0 < child.child_inodes.length
    · simp only [if_pos hlen]; exact ⟨by trivial, by trivial, by trivial⟩
    · simp only [if_neg hlen]
      cases hpar : child.parent_inode with
      | none => exact ⟨by trivial, by trivial, by trivial⟩
      | some pid =>
        simp only
        cases hpd : dictGet pid s.inode_data with
        | none => exact ⟨by trivial, by trivial, by trivial⟩
        | some pdata =>
          simp only
          by_cases hmem : child.attr.st_ino ∈ pdata.child_inodes
          · simp only [if_pos hmem]
            cases hdel : dictGet child.attr.st_ino
                (dictSet pid
                  { pdata with child_inodes := pdata.child_inodes.erase child.attr.st_ino }
                  s.inode_data) with
            | none => simp only [hdel]; exact ⟨by trivial, by trivial, by trivial⟩
            | some x => simp only [hdel]; exact ⟨by trivial, by trivial, by trivial⟩
          · simp only [if_neg hmem]; exact ⟨by trivial, by trivial, by trivial⟩

theorem step_free_inode_mono (s : NullFS) (op : Op) :
    s.free_inode ≤ (s.step op).2.free_inode := by
  cases op with
  | create p n m u g um ts =>
    simp only [step]
    rw [mapOut_snd]
    cases hg : dictGet p s.inode_data with
    | none => rw [create_enoent n m u g um ts hg]
    | some pd => rw [create_spec n m u g um ts hg]; exact Nat.le_succ _
  | openFile i fl =>
    simp only [step]
    rw [mapOut_snd]
    unfold openFile
    by_cases hfl : bitAnd fl O_WRONLY ≠ 0
    · rw [if_pos hfl]
      cases hg : dictGet i s.inode_data with
      | none => rw [_open_enoent hg]
      | some d => rw [_open_spec hg]
    · rw [if_neg hfl]
  | write fh off buf => simp only [step]; rw [mapOut_snd, write_snd]
  | lookup p n => simp only [step]; rw [mapOut_snd, lookup_snd]
  | getattr i => simp only [step]; rw [mapOut_snd, getattr_snd]
  | mkdir p n m u g um ts =>
    simp only [step]
    rw [mapOut_snd]
    cases hg : dictGet p s.inode_data with
    | none => rw [mkdir_enoent n m u g um ts hg]
    | some pd => rw [mkdir_spec n m u g um ts hg]; exact Nat.le_succ _
  | setattr i a f =>
    simp only [step]
    rw [mapOut_snd]
    cases hg : dictGet i s.inode_data with
    | none => rw [setattr_enoent a f hg]
    | some d => rw [setattr_spec a f hg]
  | readdir fh st tok => simp only [step]; rw [mapOut_snd, readdir_snd]
  | unlink p n =>
    simp only [step]
    rw [mapOut_snd]
    unfold unlink
    rw [(_remove_inode_snd_free s p n).1]
  | rmdir p n =>
    simp only [step]
    rw [mapOut_snd]
    unfold rmdir
    rw [(_remove_inode_snd_free s p n).1]
  | release fh =>
    simp only [step]
    rw [mapOut_snd]
    unfold release
    cases hg : dictGet fh s.file_handle_inode with
    | none => rw [_close_enoent hg]
    | some i => rw [_close_spec hg]

end NullFS

namespace NullFS

theorem IdsBelow_of_eq {s s2 : NullFS} (h1 : s2.inode_data = s.inode_data)
    (h2 : s2.free_inode = s.free_inode) (h : s.IdsBelow) : s2.IdsBelow := by
  intro q hq
  rw [h2]
  exact h q (h1 ▸ hq)

theorem IdsBelow_addTable {s : NullFS} {p : Nat} {pd : InodeData} {nd : InodeData}
    (hp : dictGet p s.inode_data = some pd) (h : s.IdsBelow)
    (hnd : nd.child_inodes = []) :
    ∀ q ∈ dictSet p { pd with child_inodes := pd.child_inodes ++ [s.free_inode] }
        (dictSet s.free_inode nd s.inode_data),
      q.1 < s.free_inode + 1 ∧ ∀ c ∈ q.2.child_inodes, c < s.free_inode + 1 := by
  intro q hq
  have hpmem : (p, pd) ∈ s.inode_data := dictGet_mem hp
  have hplt : p < s.free_inode := (h _ hpmem).1
  rcases mem_dictSet hq with rfl | hq2
  · refine ⟨by omega, ?_⟩
    intro c hc
    simp only [List.mem_append, List.mem_singleton] at hc
    rcases hc with hc | rfl
    · have := (h _ hpmem).2 c hc
      omega
    · omega
  · rcases mem_dictSet hq2 with rfl | hq3
    · refine ⟨by omega, ?_⟩
      intro c hc
      rw [hnd] at hc
      exact absurd hc (by simp)
    · have := h _ hq3
      exact ⟨by omega, fun c hc => by have := this.2 c hc; omega⟩

theorem IdsBelow_add (s : NullFS) (p : Nat) (n : String) (m u g um ts : Nat)
    (h : s.IdsBelow) : ((s._add_inode p n m u g um ts).2).IdsBelow := by
  cases hg : dictGet p s.inode_data with
  | none => rw [_add_inode_enoent n m u g um ts hg]; exact h
  | some pd =>
    rw [_add_inode_spec n m u g um ts hg]
    intro q hq
    exact IdsBelow_addTable hg h rfl q hq

theorem IdsBelow_create (s : NullFS) (p : Nat) (n : String) (m u g um ts : Nat)
    (h : s.IdsBelow) : ((s.create p n m u g um ts).2).IdsBelow := by
  cases hg : dictGet p s.inode_data with
  | none => rw [create_enoent n m u g um ts hg]; exact h
  | some pd =>
    rw [create_spec n m u g um ts hg]
    intro q hq
    exact IdsBelow_addTable hg h rfl q hq

theorem IdsBelow_mkdir (s : NullFS) (p : Nat) (n : String) (m u g um ts : Nat)
    (h : s.IdsBelow) : ((s.mkdir p n m u g um ts).2).IdsBelow := by
  cases hg : dictGet p s.inode_data with
  | none => rw [mkdir_enoent n m u g um ts hg]; exact h
  | some pd =>
    rw [mkdir_spec n m u g um ts hg]
    intro q hq
    exact IdsBelow_addTable hg h rfl q hq

theorem IdsBelow_setattr (s : NullFS) (i : Nat) (a : EntryAttributes) (f : SetattrFields)
    (h : s.IdsBelow) : ((s.setattr i a f).2).IdsBelow := by
  cases hg : dictGet i s.inode_data with
  | none => rw [setattr_enoent a f hg]; exact h
  | some d =>
    rw [setattr_spec a f hg]
    intro q hq
    have hmem : (i, d) ∈ s.inode_data := dictGet_mem hg
    rcases mem_dictSet hq with rfl | hq2
    · exact ⟨(h _ hmem).1, (h _ hmem).2⟩
    · exact h _ hq2

theorem IdsBelow_remove (s : NullFS) (p : Nat) (n : String)
    (h : s.IdsBelow) : ((s._remove_inode p n).2).IdsBelow := by
  unfold _remove_inode
  cases hg : s._get_inode_by_name p n with
  | error e2 => simp only [hg]; exact h
  | ok child =>
    simp only [hg]
    by_cases hlen : 0 < child.child_inodes.length
    · simp only [if_pos hlen]; exact h
    · simp only [if_neg hlen]
      cases hpar : child.parent_inode with
      | none => exact h
      | some pid =>
        simp only
        cases hpd : dictGet pid s.inode_data with
        | none => exact h
        | some pdata =>
          simp only
          have hmid : ∀ q ∈ dictSet pid
              { pdata with child_inodes := pdata.child_inodes.erase child.attr.st_ino }
              s.inode_data,
              q.1 < s.free_inode ∧ ∀ c ∈ q.2.child_inodes, c < s.free_inode := by
            intro q hq
            have hmem : (pid, pdata) ∈ s.inode_data := dictGet_mem hpd
            rcases mem_dictSet hq with rfl | hq2
            · refine ⟨(h _ hmem).1, ?_⟩
              intro c hc
              exact (h _ hmem).2 c (List.mem_of_mem_erase hc)
            · exact h _ hq2
          by_cases hmem2 : child.attr.st_ino ∈ pdata.child_inodes
          · simp only [if_pos hmem2]
            cases hdel : dictGet child.attr.st_ino
                (dictSet pid
                  { pdata with child_inodes := pdata.child_inodes.erase child.attr.st_ino }
                  s.inode_data) with
            | none =>
              simp only [hdel]
              intro q hq
              exact hmid q hq
            | some x =>
              simp only [hdel]
              intro q hq
              exact hmid q (mem_dictDel hq)
          · simp only [if_neg hmem2]; exact h

theorem step_IdsBelow (s : NullFS) (op : Op) (h : s.IdsBelow) :
    ((s.step op).2).IdsBelow := by
  cases op with
  | create p n m u g um ts =>
    simp only [step]; rw [mapOut_snd]; exact IdsBelow_create s p n m u g um ts h
  | openFile i fl =>
    simp only [step]; rw [mapOut_snd]
    unfold openFile
    by_cases hfl : bitAnd fl O_WRONLY ≠ 0
    · rw [if_pos hfl]
      cases hg : dictGet i s.inode_data with
      | none => rw [_open_enoent hg]; exact h
      | some d => rw [_open_spec hg]; exact IdsBelow_of_eq rfl rfl h
    · rw [if_neg hfl]; exact h
  | write fh off buf => simp only [step]; rw [mapOut_snd, write_snd]; exact h
  | lookup p n => simp only [step]; rw [mapOut_snd, lookup_snd]; exact h
  | getattr i => simp only [step]; rw [mapOut_snd, getattr_snd]; exact h
  | mkdir p n m u g um ts =>
    simp only [step]; rw [mapOut_snd]; exact IdsBelow_mkdir s p n m u g um ts h
  | setattr i a f =>
    simp only [step]; rw [mapOut_snd]; exact IdsBelow_setattr s i a f h
  | readdir fh st tok => simp only [step]; rw [mapOut_snd, readdir_snd]; exact h
  | unlink p n =>
    simp only [step]; rw [mapOut_snd]; exact IdsBelow_remove s p n h
  | rmdir p n =>
    simp only [step]; rw [mapOut_snd]; exact IdsBelow_remove s p n h
  | release fh =>
    simp only [step]; rw [mapOut_snd]
    unfold release
    cases hg : dictGet fh s.file_handle_inode with
    | none => rw [_close_enoent hg]; exact h
    | some i => rw [_close_spec hg]; exact IdsBelow_of_eq rfl rfl h

end NullFS

/-- C1: with a handle whose target node was removed after the handle was
opened, readdir first resolves the handle to the stale inode number, but the
following table access is the raw dictionary indexing
`self._inode_data[inode]`, which raises an untyped `KeyError` — not the typed
`FUSEError(ENOENT)` the claim requires.  The claim's two-step `NotFound`
failure mode is broken by `NullFS.readdir`. -/
theorem C1_readdir_stale_handle_keyerror :
    c1s._get_inode_by_fh 0 = .ok 2 ∧
    dictGet 2 c1s.inode_data = none ∧
    (c1s.readdir 0 0 acceptAll).1 = .error Err.keyError ∧
    Err.keyError.isTyped = false :=
  ⟨by decide, by decide, by decide, rfl⟩

/-- C2: write validates the handle, discards the payload and reports its
length; the state — in particular every node's attribute record — is exactly
unchanged, and an unknown handle fails with the typed `ENOENT` and changes
nothing. -/
theorem C2_write_reports_length_changes_nothing (s : NullFS) (fh off : Nat)
    (buf : List Nat) :
    (s.write fh off buf).2 = s ∧
    (∀ j, dictGet j ((s.write fh off buf).2).inode_data = dictGet j s.inode_data) ∧
    ((dictGet fh s.file_handle_inode).isSome = true →
      (s.write fh off buf).1 = .ok buf.length) ∧
    (dictGet fh s.file_handle_inode = none →
      (s.write fh off buf).1 = .error Err.ENOENT) := by
  refine ⟨NullFS.write_snd s fh off buf, ?_, ?_, ?_⟩
  · intro j
    rw [NullFS.write_snd s fh off buf]
  · intro hsome
    cases hg : dictGet fh s.file_handle_inode with
    | none => rw [hg] at hsome; cases hsome
    | some i =>
      have hok : s._get_inode_by_fh fh = .ok i := NullFS._get_inode_by_fh_ok.mpr hg
      unfold NullFS.write
      simp only [hok]
  · intro hnone
    have herr : s._get_inode_by_fh fh = .error .ENOENT := by
      unfold NullFS._get_inode_by_fh
      rw [hnone]
    unfold NullFS.write
    simp only [herr]

/-- C7: opening an existing node without write-only intent fails with
`EACCES` and changes nothing; with write-only intent it succeeds and the
returned handle resolves back to that inode. -/
theorem C7_open_requires_write_intent (s : NullFS) (inode flags : Nat)
    (d : NullFS.InodeData) (hnode : dictGet inode s.inode_data = some d) :
    (bitAnd flags O_WRONLY = 0 → s.openFile inode flags = (.error Err.EACCES, s)) ∧
    (bitAnd flags O_WRONLY ≠ 0 →
      (s.openFile inode flags).1 = .ok s.free_file_handle ∧
      ((s.openFile inode flags).2)._get_inode_by_fh s.free_file_handle = .ok inode) := by
  constructor
  · intro h0
    unfold NullFS.openFile
    rw [if_neg (fun hc => hc h0)]
  · intro h1
    unfold NullFS.openFile
    rw [if_pos h1, NullFS._open_spec hnode]
    refine ⟨rfl, ?_⟩
    exact NullFS._get_inode_by_fh_ok.mpr (dictGet_dictSet_self _ _ _)

/-- C7 witness: on the fresh filesystem's root inode, flags without the
write-only bit are rejected with `EACCES`, flags with it yield handle 0
resolving back to the root. -/
theorem C7_open_requires_write_intent_witness :
    fs0.openFile 1 0 = (.error Err.EACCES, fs0) ∧
    (fs0.openFile 1 1).1 = .ok 0 ∧
    ((fs0.openFile 1 1).2)._get_inode_by_fh 0 = .ok 1 := by
  have h := C7_open_requires_write_intent fs0 1 0 rootNode0 (by decide)
  have h2 := C7_open_requires_write_intent fs0 1 1 rootNode0 (by decide)
  exact ⟨h.1 (by decide), (h2.2 (by decide)).1, (h2.2 (by decide)).2⟩

/-- C10: for an inode number not in the table, open still checks write-only
intent first: without it the failure is `EACCES`, and only with it is the
nonexistence reported as `ENOENT`. -/
theorem C10_open_missing_node_intent_checked_first (s : NullFS) (inode flags : Nat)
    (hnode : dictGet inode s.inode_data = none) :
    (bitAnd flags O_WRONLY = 0 → s.openFile inode flags = (.error Err.EACCES, s)) ∧
    (bitAnd flags O_WRONLY ≠ 0 → s.openFile inode flags = (.error Err.ENOENT, s)) := by
  constructor
  · intro h0
    unfold NullFS.openFile
    rw [if_neg (fun hc => hc h0)]
  · intro h1
    unfold NullFS.openFile
    rw [if_pos h1, NullFS._open_enoent hnode]

/-- C10 witness: inode 99 does not exist in the fresh filesystem; opening it
read-write (flags 2) fails with `EACCES`, write-only (flags 1) with
`ENOENT`. -/
theorem C10_open_missing_node_witness :
    fs0.openFile 99 2 = (.error Err.EACCES, fs0) ∧
    fs0.openFile 99 1 = (.error Err.ENOENT, fs0) := by
  have h := C10_open_missing_node_intent_checked_first fs0 99 2 (by decide)
  have h2 := C10_open_missing_node_intent_checked_first fs0 99 1 (by decide)
  exact ⟨h.1 (by decide), h2.2 (by decide)⟩

/-- C8: whenever an operation of the handler fails with a typed protocol
error, the node table and the handle table after the call are exactly the
tables before it — no partially applied mutation. -/
theorem C8_failed_op_leaves_tables_unchanged (s : NullFS) (op : NullFS.Op) (e : Err)
    (herr : (s.step op).1 = .error e) (ht : e.isTyped = true) :
    (s.step op).2 = s :=
  NullFS.step_typed_error_frame_aux s op e herr ht

/-- C8 witness: opening the missing inode 99 write-only fails with `ENOENT`
and leaves the fresh filesystem unchanged. -/
theorem C8_failed_op_witness :
    (fs0.step (NullFS.Op.openFile 99 1)).2 = fs0 :=
  C8_failed_op_leaves_tables_unchanged fs0 (NullFS.Op.openFile 99 1) Err.ENOENT rfl rfl

namespace NullFS

theorem applySetattr_atime (old new : EntryAttributes) (f : SetattrFields) :
    (applySetattr old new f).st_atime_ns =
      if f.update_atime = true then new.st_atime_ns else old.st_atime_ns := by
  simp [applySetattr, apply_ite EntryAttributes.st_atime_ns]

theorem applySetattr_mtime (old new : EntryAttributes) (f : SetattrFields) :
    (applySetattr old new f).st_mtime_ns =
      if f.update_mtime = true then new.st_mtime_ns else old.st_mtime_ns := by
  simp [applySetattr, apply_ite EntryAttributes.st_mtime_ns]

theorem applySetattr_ctime (old new : EntryAttributes) (f : SetattrFields) :
    (applySetattr old new f).st_ctime_ns =
      if f.update_ctime = true then new.st_ctime_ns else old.st_ctime_ns := by
  simp [applySetattr, apply_ite EntryAttributes.st_ctime_ns]

theorem applySetattr_mode (old new : EntryAttributes) (f : SetattrFields) :
    (applySetattr old new f).st_mode =
      if f.update_mode = true then new.st_mode else old.st_mode := by
  simp [applySetattr, apply_ite EntryAttributes.st_mode]

theorem applySetattr_uid (old new : EntryAttributes) (f : SetattrFields) :
    (applySetattr old new f).st_uid =
      if f.update_uid = true then new.st_uid else old.st_uid := by
  simp [applySetattr, apply_ite EntryAttributes.st_uid]

theorem applySetattr_gid (old new : EntryAttributes) (f : SetattrFields) :
    (applySetattr old new f).st_gid =
      if f.update_gid = true then new.st_gid else old.st_gid := by
  simp [applySetattr, apply_ite EntryAttributes.st_gid]

theorem applySetattr_size (old new : EntryAttributes) (f : SetattrFields) :
    (applySetattr old new f).st_size =
      if f.update_size = true then new.st_size else old.st_size := by
  simp [applySetattr, apply_ite EntryAttributes.st_size]

theorem applySetattr_ino (old new : EntryAttributes) (f : SetattrFields) :
    (applySetattr old new f).st_ino = old.st_ino := by
  simp [applySetattr, apply_ite EntryAttributes.st_ino]

theorem applySetattr_nlink (old new : EntryAttributes) (f : SetattrFields) :
    (applySetattr old new f).st_nlink = old.st_nlink := by
  simp [applySetattr, apply_ite EntryAttributes.st_nlink]

theorem applySetattr_rdev (old new : EntryAttributes) (f : SetattrFields) :
    (applySetattr old new f).st_rdev = old.st_rdev := by
  simp [applySetattr, apply_ite EntryAttributes.st_rdev]

theorem applySetattr_blksize (old new : EntryAttributes) (f : SetattrFields) :
    (applySetattr old new f).st_blksize = old.st_blksize := by
  simp [applySetattr, apply_ite EntryAttributes.st_blksize]

theorem applySetattr_blocks (old new : EntryAttributes) (f : SetattrFields) :
    (applySetattr old new f).st_blocks = old.st_blocks := by
  simp [applySetattr, apply_ite EntryAttributes.st_blocks]

theorem applySetattr_birthtime (old new : EntryAttributes) (f : SetattrFields) :
    (applySetattr old new f).st_birthtime_ns = old.st_birthtime_ns := by
  simp [applySetattr, apply_ite EntryAttributes.st_birthtime_ns]

end NullFS

/-- C6: set-attributes overwrites exactly the fields flagged in the mask with
the supplied values; every unflagged field, every other node, the counters and
the handle table keep their previous values; an unknown node fails with
`ENOENT` and changes nothing. -/
theorem C6_setattr_selective_update (s : NullFS) (inode : Nat)
    (attr : EntryAttributes) (fields : SetattrFields) :
    (dictGet inode s.inode_data = none →
      s.setattr inode attr fields = (.error Err.ENOENT, s)) ∧
    (∀ d, dictGet inode s.inode_data = some d →
      ∃ a, (s.setattr inode attr fields).1 = .ok a ∧
        a.st_atime_ns
          = (if fields.update_atime = true then attr.st_atime_ns else d.attr.st_atime_ns) ∧
        a.st_mtime_ns
          = (if fields.update_mtime = true then attr.st_mtime_ns else d.attr.st_mtime_ns) ∧
        a.st_ctime_ns
          = (if fields.update_ctime = true then attr.st_ctime_ns else d.attr.st_ctime_ns) ∧
        a.st_mode = (if fields.update_mode = true then attr.st_mode else d.attr.st_mode) ∧
        a.st_uid = (if fields.update_uid = true then attr.st_uid else d.attr.st_uid) ∧
        a.st_gid = (if fields.update_gid = true then attr.st_gid else d.attr.st_gid) ∧
        a.st_size = (if fields.update_size = true then attr.st_size else d.attr.st_size) ∧
        a.st_ino = d.attr.st_ino ∧
        a.st_nlink = d.attr.st_nlink ∧
        a.st_rdev = d.attr.st_rdev ∧
        a.st_blksize = d.attr.st_blksize ∧
        a.st_blocks = d.attr.st_blocks ∧
        a.st_birthtime_ns = d.attr.st_birthtime_ns ∧
        dictGet inode ((s.setattr inode attr fields).2).inode_data
          = some { d with attr := a } ∧
        (∀ j, j ≠ inode →
          dictGet j ((s.setattr inode attr fields).2).inode_data
            = dictGet j s.inode_data) ∧
        ((s.setattr inode attr fields).2).free_inode = s.free_inode ∧
        ((s.setattr inode attr fields).2).free_file_handle = s.free_file_handle ∧
        ((s.setattr inode attr fields).2).file_handle_inode = s.file_handle_inode) := by
  constructor
  · intro h
    exact NullFS.setattr_enoent attr fields h
  · intro d hd
    refine ⟨NullFS.applySetattr d.attr attr fields, ?_⟩
    rw [NullFS.setattr_spec attr fields hd]
    refine ⟨rfl,
      NullFS.applySetattr_atime d.attr attr fields,
      NullFS.applySetattr_mtime d.attr attr fields,
      NullFS.applySetattr_ctime d.attr attr fields,
      NullFS.applySetattr_mode d.attr attr fields,
      NullFS.applySetattr_uid d.attr attr fields,
      NullFS.applySetattr_gid d.attr attr fields,
      NullFS.applySetattr_size d.attr attr fields,
      NullFS.applySetattr_ino d.attr attr fields,
      NullFS.applySetattr_nlink d.attr attr fields,
      NullFS.applySetattr_rdev d.attr attr fields,
      NullFS.applySetattr_blksize d.attr attr fields,
      NullFS.applySetattr_blocks d.attr attr fields,
      NullFS.applySetattr_birthtime d.attr attr fields,
      dictGet_dictSet_self _ _ _, ?_, rfl, rfl, rfl⟩
    intro j hj
    exact dictGet_dictSet_ne hj _ _

/-- C3: for an open handle on a directory whose child collection is exactly
[A, B, C], readdir from cursor 0 with room for one entry delivers A with
resume cursor 1; readdir from cursor 1 with unlimited room delivers B then C
with resume cursors 2 then 3; and any cursor at or past the end (such as 5)
delivers no entries and does not fail. -/
theorem C3_readdir_pagination (s : NullFS) (fh i : Nat)
    (d dA dB dC : NullFS.InodeData) (iA iB iC : Nat)
    (hfh : dictGet fh s.file_handle_inode = some i)
    (hd : dictGet i s.inode_data = some d)
    (hch : d.child_inodes = [iA, iB, iC])
    (hA : dictGet iA s.inode_data = some dA)
    (hB : dictGet iB s.inode_data = some dB)
    (hC : dictGet iC s.inode_data = some dC) :
    s.readdir fh 0 acceptOne = (.ok [(dA.name, dA.attr, 1)], s) ∧
    s.readdir fh 1 acceptAll = (.ok [(dB.name, dB.attr, 2), (dC.name, dC.attr, 3)], s) ∧
    (∀ cursor, 3 ≤ cursor → ∀ token, s.readdir fh cursor token = (.ok [], s)) := by
  have hok : s._get_inode_by_fh fh = .ok i := NullFS._get_inode_by_fh_ok.mpr hfh
  refine ⟨?_, ?_, ?_⟩
  · unfold NullFS.readdir
    simp only [hok, hd, hch]
    rw [if_pos (by simp)]
    simp [NullFS.readdirLoop, acceptOne, NullFS.nodeAt, hA, hB, hC]
  · unfold NullFS.readdir
    simp only [hok, hd, hch]
    rw [if_pos (by simp)]
    simp [NullFS.readdirLoop, acceptAll, NullFS.nodeAt, hA, hB, hC]
  · intro cursor hcur token
    unfold NullFS.readdir
    simp only [hok, hd, hch]
    rw [if_neg (by simp only [List.length_cons, List.length_nil]; omega)]

/-- C3 witness: the pagination behavior on the concrete three-child trace. -/
theorem C3_readdir_pagination_witness :
    c3s.readdir 0 0 acceptOne = (.ok [(nameA, c3dA.attr, 1)], c3s) ∧
    c3s.readdir 0 1 acceptAll = (.ok [(nameB, c3dB.attr, 2), (nameC, c3dC.attr, 3)], c3s) ∧
    c3s.readdir 0 5 acceptAll = (.ok [], c3s) := by
  have h := C3_readdir_pagination c3s 0 1 c3root c3dA c3dB c3dC 2 3 4
    (by decide) (by decide) (by decide) (by decide) (by decide) (by decide)
  exact ⟨h.1, h.2.1, h.2.2 5 (by omega) acceptAll⟩

/-- C5: creating a child under an existing parent yields a node whose mode is
the requested mode with the umask bits cleared, with link count 0, size 0,
device number 0, creation timestamp 0 and equal access/modify/change
timestamps; its identifier is the allocation counter, strictly greater than
every identifier in the table and never previously present; the node is
appended at the end of the parent's child collection and registered in the
table; the counter advances by one, never decreases under any operation, and
the identifier bound is preserved by every operation, so an identifier is
never reused for the table's lifetime.  An unknown parent fails with
`ENOENT` and changes nothing. -/
theorem C5_create_child_spec (s : NullFS) (parent_inode : Nat) (name : String)
    (mode uid gid umask ts : Nat) (hIds : s.IdsBelow) :
    (dictGet parent_inode s.inode_data = none →
      s._add_inode parent_inode name mode uid gid umask ts = (.error Err.ENOENT, s)) ∧
    (∀ pd, dictGet parent_inode s.inode_data = some pd →
      ∃ d, (s._add_inode parent_inode name mode uid gid umask ts).1 = .ok d ∧
        d.name = name ∧
        d.attr.st_mode = bitAndNot mode umask ∧
        d.attr.st_nlink = 0 ∧
        d.attr.st_size = 0 ∧
        d.attr.st_rdev = 0 ∧
        d.attr.st_birthtime_ns = 0 ∧
        d.attr.st_atime_ns = ts ∧
        d.attr.st_mtime_ns = ts ∧
        d.attr.st_ctime_ns = ts ∧
        d.attr.st_ino = s.free_inode ∧
        (∀ q ∈ s.inode_data, q.1 < d.attr.st_ino) ∧
        dictGet d.attr.st_ino s.inode_data = none ∧
        ((s._add_inode parent_inode name mode uid gid umask ts).2).free_inode
          = s.free_inode + 1 ∧
        dictGet parent_inode
            ((s._add_inode parent_inode name mode uid gid umask ts).2).inode_data
          = some { pd with child_inodes := pd.child_inodes ++ [d.attr.st_ino] } ∧
        dictGet d.attr.st_ino
            ((s._add_inode parent_inode name mode uid gid umask ts).2).inode_data
          = some d ∧
        ((s._add_inode parent_inode name mode uid gid umask ts).2).IdsBelow) ∧
    (∀ (s3 : NullFS) (op : NullFS.Op), s3.free_inode ≤ (s3.step op).2.free_inode) ∧
    (∀ (s3 : NullFS) (op : NullFS.Op), s3.IdsBelow → ((s3.step op).2).IdsBelow) := by
  refine ⟨?_, ?_, NullFS.step_free_inode_mono, NullFS.step_IdsBelow⟩
  · intro hp
    exact NullFS._add_inode_enoent name mode uid gid umask ts hp
  · intro pd hp
    refine ⟨s.freshNode parent_inode name mode uid gid umask ts, ?_⟩
    have hplt : parent_inode < s.free_inode := (hIds _ (dictGet_mem hp)).1
    have hnone : dictGet s.free_inode s.inode_data = none := by
      cases hq : dictGet s.free_inode s.inode_data with
      | none => rfl
      | some x =>
        have := (hIds _ (dictGet_mem hq)).1
        omega
    rw [NullFS._add_inode_spec name mode uid gid umask ts hp]
    refine ⟨rfl, rfl, rfl, rfl, rfl, rfl, rfl, rfl, rfl, rfl, rfl,
      fun q hq => (hIds q hq).1, hnone, rfl, dictGet_dictSet_self _ _ _, ?_, ?_⟩
    · have hne : (s.freshNode parent_inode name mode uid gid umask ts).attr.st_ino
          ≠ parent_inode := by
        show s.free_inode ≠ parent_inode
        omega
      rw [dictGet_dictSet_ne hne]
      exact dictGet_dictSet_self _ _ _
    · have h2 := NullFS.IdsBelow_add s parent_inode name mode uid gid umask ts hIds
      rw [NullFS._add_inode_spec name mode uid gid umask ts hp] at h2
      exact h2

/-- C5 witness: adding `w5` under the root of the fresh filesystem allocates
inode 2 (the counter), registers it, appends it to the root's children and
advances the counter to 3. -/
theorem C5_create_child_spec_witness :
    (fs0._add_inode 1 nameW5 16895 1000 1000 18 42).2.free_inode = 3 ∧
    ∃ d, (fs0._add_inode 1 nameW5 16895 1000 1000 18 42).1 = .ok d ∧
      d.attr.st_ino = 2 ∧ d.attr.st_mode = 16877 := by
  have h := C5_create_child_spec fs0 1 nameW5 16895 1000 1000 18 42 (by decide)
  obtain ⟨d, h1, _, hmode, _, _, _, _, _, _, _, hino, _, _, hfree, _, _, _⟩ :=
    h.2.1 rootNode0 (by decide)
  constructor
  · rw [hfree]
    decide
  · refine ⟨d, h1, ?_, ?_⟩
    · rw [hino]
      decide
    · rw [hmode]
      decide

/-- C9: two successive create-child calls with the same name under a parent
that had no child of that name leave two distinct nodes in the table, both
bearing that name, the first-created one earlier in the parent's child
collection; lookup-by-name then returns the first-created child (the first
match in collection order), leaving the second unreachable by name. -/
theorem C9_duplicate_names_lookup_first (s : NullFS) (p : Nat)
    (pd : NullFS.InodeData) (n : String) (m1 u1 g1 um1 t1 m2 u2 g2 um2 t2 : Nat)
    (hIds : s.IdsBelow)
    (hp : dictGet p s.inode_data = some pd)
    (hnone : s.childNamed n pd.child_inodes = none) :
    ∃ d1 d2,
      (s._add_inode p n m1 u1 g1 um1 t1).1 = .ok d1 ∧
      (((s._add_inode p n m1 u1 g1 um1 t1).2)._add_inode p n m2 u2 g2 um2 t2).1
        = .ok d2 ∧
      d1.name = n ∧
      d2.name = n ∧
      d1.attr.st_ino ≠ d2.attr.st_ino ∧
      dictGet d1.attr.st_ino
        ((((s._add_inode p n m1 u1 g1 um1 t1).2)._add_inode p n m2 u2 g2 um2
          t2).2).inode_data = some d1 ∧
      dictGet d2.attr.st_ino
        ((((s._add_inode p n m1 u1 g1 um1 t1).2)._add_inode p n m2 u2 g2 um2
          t2).2).inode_data = some d2 ∧
      dictGet p
        ((((s._add_inode p n m1 u1 g1 um1 t1).2)._add_inode p n m2 u2 g2 um2
          t2).2).inode_data
        = some { pd with child_inodes :=
            pd.child_inodes ++ [d1.attr.st_ino] ++ [d2.attr.st_ino] } ∧
      ((((s._add_inode p n m1 u1 g1 um1 t1).2)._add_inode p n m2 u2 g2 um2
        t2).2)._get_inode_by_name p n = .ok d1 := by
  have hmem : (p, pd) ∈ s.inode_data := dictGet_mem hp
  have hplt : p < s.free_inode := (hIds _ hmem).1
  have hchlt : ∀ j ∈ pd.child_inodes, j < s.free_inode := (hIds _ hmem).2
  have hadd1 := NullFS._add_inode_spec n m1 u1 g1 um1 t1 hp
  have hp1 : dictGet p ((s._add_inode p n m1 u1 g1 um1 t1).2).inode_data
      = some { pd with child_inodes := pd.child_inodes ++ [s.free_inode] } := by
    rw [hadd1]
    exact dictGet_dictSet_self _ _ _
  have hadd2 := NullFS._add_inode_spec n m2 u2 g2 um2 t2 hp1
  refine ⟨⟨n, ⟨s.free_inode, bitAndNot m1 um1, 0, u1, g1, 0, 0, 4096, 0, t1, t1, t1, 0⟩,
      some p, []⟩,
    ⟨n, ⟨s.free_inode + 1, bitAndNot m2 um2, 0, u2, g2, 0, 0, 4096, 0, t2, t2, t2, 0⟩,
      some p, []⟩, ?_, ?_, rfl, rfl, ?_, ?_, ?_, ?_, ?_⟩
  case _ =>
    rw [hadd1]
    exact rfl
  case _ =>
    rw [hadd2, hadd1]
    exact rfl
  case _ =>
    show s.free_inode ≠ s.free_inode + 1
    omega
  all_goals
    have hfinal : ((((s._add_inode p n m1 u1 g1 um1 t1).2)._add_inode p n m2 u2 g2 um2
        t2).2).inode_data =
        dictSet p { pd with child_inodes :=
            (pd.child_inodes ++ [s.free_inode]) ++ [s.free_inode + 1] }
          (dictSet (s.free_inode + 1)
            ⟨n, ⟨s.free_inode + 1, bitAndNot m2 um2, 0, u2, g2, 0, 0, 4096, 0,
              t2, t2, t2, 0⟩, some p, []⟩
            (dictSet p { pd with child_inodes := pd.child_inodes ++ [s.free_inode] }
              (dictSet s.free_inode
                ⟨n, ⟨s.free_inode, bitAndNot m1 um1, 0, u1, g1, 0, 0, 4096, 0,
                  t1, t1, t1, 0⟩, some p, []⟩
                s.inode_data))) := by
      rw [hadd2, hadd1]
      exact rfl
  case _ =>
    show dictGet s.free_inode _ = _
    rw [hfinal]
    rw [dictGet_dictSet_ne (by omega : s.free_inode ≠ p)]
    rw [dictGet_dictSet_ne (by omega : s.free_inode ≠ s.free_inode + 1)]
    rw [dictGet_dictSet_ne (by omega : s.free_inode ≠ p)]
    exact dictGet_dictSet_self _ _ _
  case _ =>
    show dictGet (s.free_inode + 1) _ = _
    rw [hfinal]
    rw [dictGet_dictSet_ne (by omega : s.free_inode + 1 ≠ p)]
    exact dictGet_dictSet_self _ _ _
  case _ =>
    rw [hfinal]
    exact dictGet_dictSet_self _ _ _
  case _ =>
    have hpF : dictGet p
        ((((s._add_inode p n m1 u1 g1 um1 t1).2)._add_inode p n m2 u2 g2 um2
          t2).2).inode_data
        = some { pd with child_inodes :=
            (pd.child_inodes ++ [s.free_inode]) ++ [s.free_inode + 1] } := by
      rw [hfinal]
      exact dictGet_dictSet_self _ _ _
    have hc1 : dictGet s.free_inode
        ((((s._add_inode p n m1 u1 g1 um1 t1).2)._add_inode p n m2 u2 g2 um2
          t2).2).inode_data
        = some ⟨n, ⟨s.free_inode, bitAndNot m1 um1, 0, u1, g1, 0, 0, 4096, 0,
            t1, t1, t1, 0⟩, some p, []⟩ := by
      rw [hfinal]
      rw [dictGet_dictSet_ne (by omega : s.free_inode ≠ p)]
      rw [dictGet_dictSet_ne (by omega : s.free_inode ≠ s.free_inode + 1)]
      rw [dictGet_dictSet_ne (by omega : s.free_inode ≠ p)]
      exact dictGet_dictSet_self _ _ _
    have hpre : NullFS.childNamed
        ((((s._add_inode p n m1 u1 g1 um1 t1).2)._add_inode p n m2 u2 g2 um2 t2).2)
        n pd.child_inodes = none := by
      apply NullFS.childNamed_eq_none
      intro j hj dj hdj
      have hjlt : j < s.free_inode := hchlt j hj
      rw [hfinal] at hdj
      by_cases hjp : j = p
      · subst hjp
        rw [dictGet_dictSet_self] at hdj
        injection hdj with hdj2
        subst hdj2
        show pd.name ≠ n
        exact NullFS.childNamed_none_forall hnone j hj pd hp
      · rw [dictGet_dictSet_ne hjp] at hdj
        rw [dictGet_dictSet_ne (by omega : j ≠ s.free_inode + 1)] at hdj
        rw [dictGet_dictSet_ne hjp] at hdj
        rw [dictGet_dictSet_ne (by omega : j ≠ s.free_inode)] at hdj
        exact NullFS.childNamed_none_forall hnone j hj dj hdj
    apply NullFS._get_inode_by_name_child_some hpF
    show NullFS.childNamed _ n ((pd.child_inodes ++ [s.free_inode]) ++ [s.free_inode + 1])
      = _
    rw [List.append_assoc]
    rw [NullFS.childNamed_append_none hpre]
    simp only [NullFS.childNamed, NullFS.nodeAt, hc1]
    rw [if_pos trivial]

/-- C9 witness: adding `a` twice under the fresh root, lookup of `a` in the
resulting table returns exactly the node the first create call returned. -/
theorem C9_duplicate_names_lookup_first_witness :
    (((fs0._add_inode 1 nameA 493 0 0 0 1).2._add_inode 1 nameA 493 0 0 0
      2).2)._get_inode_by_name 1 nameA = (fs0._add_inode 1 nameA 493 0 0 0 1).1 := by
  obtain ⟨d1, d2, h1, h2, hn1, hn2, hne, hg1, hg2, hgp, hlook⟩ :=
    C9_duplicate_names_lookup_first fs0 1 rootNode0 nameA 493 0 0 0 1 493 0 0 0 2
      (by decide) (by decide) (by decide)
  rw [hlook, h1]

theorem dictGet_of_mem_nodup {α : Type} {l : List (Nat × α)} {k : Nat} {v : α}
    (hnd : (l.map Prod.fst).Nodup) (hmem : (k, v) ∈ l) : dictGet k l = some v := by
  induction l with
  | nil => exact absurd hmem (by simp)
  | cons q rest ih =>
    simp only [List.map_cons, List.nodup_cons] at hnd
    rcases List.mem_cons.mp hmem with rfl | hmem2
    · simp [dictGet]
    · have hk : k ∈ rest.map Prod.fst := List.mem_map_of_mem Prod.fst hmem2
      have hq : q.1 ≠ k := fun h => hnd.1 (h ▸ hk)
      simp only [dictGet, if_neg hq]
      exact ih hnd.2 hmem2

namespace NullFS

theorem _remove_inode_byname_enoent {s : NullFS} {p : Nat} {n : String}
    (h : s._get_inode_by_name p n = .error .ENOENT) :
    s._remove_inode p n = (.error .ENOENT, s) := by
  unfold _remove_inode
  simp only [h]

theorem _remove_inode_notempty {s : NullFS} {p : Nat} {n : String}
    {child : InodeData} (h : s._get_inode_by_name p n = .ok child)
    (hne : child.child_inodes ≠ []) :
    s._remove_inode p n = (.error .ENOTEMPTY, s) := by
  unfold _remove_inode
  simp only [h]
  rw [if_pos (List.length_pos.mpr hne)]

theorem _remove_inode_success {s : NullFS} {p : Nat} {n : String} {pd child : InodeData}
    (hp : dictGet p s.inode_data = some pd)
    (hbyname : s._get_inode_by_name p n = .ok child)
    (hemp : child.child_inodes = [])
    (hpar : child.parent_inode = some p)
    (hmem : child.attr.st_ino ∈ pd.child_inodes)
    (hcne : child.attr.st_ino ≠ p)
    (hcid : dictGet child.attr.st_ino s.inode_data = some child) :
    s._remove_inode p n = (.ok (),
      { free_inode := s.free_inode,
        inode_data := dictDel child.attr.st_ino
          (dictSet p { pd with child_inodes := pd.child_inodes.erase child.attr.st_ino }
            s.inode_data),
        free_file_handle := s.free_file_handle,
        file_handle_inode := s.file_handle_inode }) := by
  unfold _remove_inode
  simp only [hbyname]
  rw [if_neg (by rw [hemp]; simp)]
  simp only [hpar, hp, if_pos hmem]
  have hdel : dictGet child.attr.st_ino
      (dictSet p { pd with child_inodes := pd.child_inodes.erase child.attr.st_ino }
        s.inode_data) = some child := by
    rw [dictGet_dictSet_ne hcne]
    exact hcid
  simp only [hdel]

end NullFS

/-- C4 (amended): removing a resolved child with a non-empty child collection
fails with `ENOTEMPTY` and changes nothing; removing a resolved child with an
empty child collection detaches it from the parent's child collection and
deletes it from the table, and — provided no other child of that parent bears
the same name — a second remove with the same parent and name fails with
`ENOENT` and changes nothing.  (As stated in the claim the second call need
not fail: with duplicate same-named siblings it removes the next one, see the
counterexample.) -/
theorem C4_remove_child_spec (s : NullFS) (p : Nat) (n : String)
    (pd child : NullFS.InodeData)
    (hwf : s.Wf)
    (hp : dictGet p s.inode_data = some pd)
    (hc : s.get_child pd n = some child) :
    (child.child_inodes ≠ [] → s._remove_inode p n = (.error Err.ENOTEMPTY, s)) ∧
    (child.child_inodes = [] →
      (∀ j ∈ pd.child_inodes, ∀ dj, dictGet j s.inode_data = some dj →
        dj.name = n → j = child.attr.st_ino) →
      (s._remove_inode p n).1 = .ok () ∧
      dictGet p ((s._remove_inode p n).2).inode_data
        = some { pd with child_inodes := pd.child_inodes.erase child.attr.st_ino } ∧
      dictGet child.attr.st_ino ((s._remove_inode p n).2).inode_data = none ∧
      ((s._remove_inode p n).2)._remove_inode p n
        = (.error Err.ENOENT, (s._remove_inode p n).2)) := by
  have hbyname : s._get_inode_by_name p n = .ok child :=
    NullFS._get_inode_by_name_child_some hp hc
  constructor
  · intro hne
    exact NullFS._remove_inode_notempty hbyname hne
  · intro hemp huniq
    obtain ⟨hname, j, hj, hdictj⟩ := NullFS.childNamed_some hc
    have hkeymatch : child.attr.st_ino = j := hwf.2.1 _ (dictGet_mem hdictj)
    have hmem : child.attr.st_ino ∈ pd.child_inodes := by rw [hkeymatch]; exact hj
    have hcid : dictGet child.attr.st_ino s.inode_data = some child := by
      rw [hkeymatch]; exact hdictj
    have hclause := hwf.2.2 _ (dictGet_mem hp) j hj
    have hcne : child.attr.st_ino ≠ p := by rw [hkeymatch]; exact hclause.1
    have hpar : child.parent_inode = some p := by
      obtain ⟨q, hqmem, hq1, hq2⟩ := hclause.2
      have hqget : dictGet q.1 s.inode_data = some q.2 :=
        dictGet_of_mem_nodup hwf.1 hqmem
      rw [hq1, hdictj] at hqget
      injection hqget with h3
      rw [← h3] at hq2
      exact hq2
    have hrm := NullFS._remove_inode_success hp hbyname hemp hpar hmem hcne hcid
    have htab : ((s._remove_inode p n).2).inode_data
        = dictDel child.attr.st_ino
            (dictSet p { pd with child_inodes := pd.child_inodes.erase child.attr.st_ino }
              s.inode_data) := by
      rw [hrm]
    have hgp2 : dictGet p ((s._remove_inode p n).2).inode_data
        = some { pd with child_inodes := pd.child_inodes.erase child.attr.st_ino } := by
      rw [htab]
      rw [dictGet_dictDel_ne (Ne.symm hcne)]
      exact dictGet_dictSet_self _ _ _
    have hgc2 : dictGet child.attr.st_ino ((s._remove_inode p n).2).inode_data
        = none := by
      rw [htab]
      apply dictGet_dictDel_self
      rw [keys_dictSet _ _ _ (List.mem_map_of_mem Prod.fst (dictGet_mem hp))]
      exact hwf.1
    have hnone2 : ((s._remove_inode p n).2).childNamed n
        (pd.child_inodes.erase child.attr.st_ino) = none := by
      apply NullFS.childNamed_eq_none
      intro j2 hj2 dj hdj hname2
      have hj2mem : j2 ∈ pd.child_inodes := List.mem_of_mem_erase hj2
      by_cases hjc : j2 = child.attr.st_ino
      · rw [hjc, hgc2] at hdj
        cases hdj
      · have hj2p : j2 ≠ p := (hwf.2.2 _ (dictGet_mem hp) j2 hj2mem).1
        have heq : dictGet j2 ((s._remove_inode p n).2).inode_data
            = dictGet j2 s.inode_data := by
          rw [htab]
          rw [dictGet_dictDel_ne hjc]
          exact dictGet_dictSet_ne hj2p _ _
        rw [heq] at hdj
        exact hjc (huniq j2 hj2mem dj hdj hname2)
    have hsecond : ((s._remove_inode p n).2)._get_inode_by_name p n
        = .error .ENOENT :=
      NullFS._get_inode_by_name_child_none hgp2 hnone2
    have hfst : (s._remove_inode p n).1 = .ok () := by rw [hrm]
    exact ⟨hfst, hgp2, hgc2, NullFS._remove_inode_byname_enoent hsecond⟩

/-- C4 counterexample: with two same-named empty siblings, the first remove
resolves an empty child and succeeds — and so does the second remove with the
same parent and name (it removes the duplicate), instead of failing with
`ENOENT` as the claim states. -/
theorem C4_second_remove_duplicate_succeeds :
    c4s._get_inode_by_name 1 nameA = .ok c4child1 ∧
    c4child1.child_inodes = [] ∧
    (c4s._remove_inode 1 nameA).1 = .ok () ∧
    (((c4s._remove_inode 1 nameA).2)._remove_inode 1 nameA).1 = .ok () ∧
    (((c4s._remove_inode 1 nameA).2)._remove_inode 1 nameA).1 ≠ .error Err.ENOENT :=
  ⟨by decide, by decide, by decide, by decide, by decide⟩

/-- C4 witness: removing the unique empty child `b` succeeds and a second
remove with the same parent and name fails with `ENOENT`, changing nothing. -/
theorem C4_remove_child_spec_witness :
    (c4w._remove_inode 1 nameB).1 = .ok () ∧
    ((c4w._remove_inode 1 nameB).2)._remove_inode 1 nameB
      = (.error Err.ENOENT, (c4w._remove_inode 1 nameB).2) := by
  have huniq : ∀ j ∈ c4wroot.child_inodes, ∀ dj, dictGet j c4w.inode_data = some dj →
      dj.name = nameB → j = c4wchild.attr.st_ino := by
    intro j hj dj hdj hname
    have hj2 : j = 2 := by simpa [c4wroot] using hj
    rw [hj2]
    decide
  obtain ⟨h1, h2, h3, h4⟩ :=
    (C4_remove_child_spec c4w 1 nameB c4wroot c4wchild (by decide) (by decide)
      (by decide)).2 rfl huniq
  exact ⟨h1, h4⟩
